import Mathlib

/-!
Verification of the `create-nodejs-fn` Vite plugin (incremental regeneration
state machine, serialized regeneration queue, debounce coalescing, container
key routing) against its natural-language specification.

The development shallowly embeds the TypeScript sources:
- `src/index.ts` (module discovery/cache, `refreshModules`, `regenerate`,
  `enqueueRegeneration`, the two debounce stages),
- `src/build-container-server.ts` (packaging, custom Dockerfile handling),
- `src/generate-proxy-files.ts` (the generated proxy wrapper body),
- `src/types.ts` (the data model).
Node externals (`fs`, `path`, `glob`, ts-morph parsing) are modelled as an
explicit environment of pure functions; paths are assumed pre-normalized, so
`path.normalize` is the identity.  `JSON.stringify` inequality on the
`DiscoveredModule` data model coincides with structural inequality (both
sides are produced by the same constructor with the same field order and
JSON string escaping is injective), so the dirty comparison is modelled as
decidable structural equality.
-/

namespace CreateNodejsFn

/-! ## Decimal digit lists (kernel-reducible, fuel-based) -/

/-- Little-endian decimal digits of a natural number; `fuel`-structured so the
kernel can evaluate it. -/
def natDigitsAux : Nat → Nat → List Nat
  | 0, _ => []
  | fuel + 1, n => if n = 0 then [] else n % 10 :: natDigitsAux fuel (n / 10)

/-- Little-endian decimal digits of `n` (empty for `0`). -/
def natDigits (n : Nat) : List Nat := natDigitsAux n n

/-- Value of a little-endian decimal digit list. -/
def digitsVal : List Nat → Nat
  | [] => 0
  | d :: ds => d + 10 * digitsVal ds

/-! ## Namespace sanitizer

Modelled from the spec: `sanitizeNamespace` lives in `src/path-utils.ts`,
which is not part of the provided sources; per spec §3 the namespace is "a
deterministic, sanitized identifier derived purely from relativePath" with
the invariant that distinct inputs never collide.  We model it as the
injection that keeps ASCII alphanumeric characters and escapes every other
character as an underscore-delimited decimal code. -/

/-- Character kept verbatim by the sanitizer. -/
def isIdentChar (c : Char) : Bool := c.isAlpha || c.isDigit

/-- Decimal digit as a character. -/
def digitChar (d : Nat) : Char := Char.ofNat (48 + d)

/-- Sanitizer encoding of one character: alphanumerics stay, everything else
becomes an underscore-delimited decimal escape. -/
def encChar (c : Char) : List Char :=
  if isIdentChar c then [c] else '_' :: ((natDigits c.toNat).map digitChar ++ ['_'])

/-- Modelled from the spec: `sanitizeNamespace` of the missing
`src/path-utils.ts` — a deterministic, collision-free sanitized identifier
computed purely from its input. -/
def sanitizeNamespace (s : String) : String := String.mk ((s.data.map encChar).flatten)

/-- Embedding of `rel.replace(/\.[^.]+$/, "")` from `src/index.ts`
(`refreshModules`): strip a final dot followed by one or more non-dot
characters. -/
def stripExt (s : String) : String :=
  let rev := s.data.reverse
  let tailNonDot := rev.takeWhile (fun c => c != '.')
  match rev.dropWhile (fun c => c != '.') with
  | '.' :: more => if tailNonDot.isEmpty then s else String.mk more.reverse
  | _ => s

/-- Namespace computed for a module with relative path `rel`
(`src/index.ts` line 99: `sanitizeNamespace(relNoExt)`). -/
def namespaceOfRel (rel : String) : String := sanitizeNamespace (stripExt rel)

/-! ## Data model (`src/types.ts`) -/

/-- `DiscoveredExport` from `src/types.ts`: an exported entry function and its
(serialized) routing-key expression, if declared. -/
structure DiscoveredExport where
  name : String
  containerKeyExpr : Option String
deriving DecidableEq, Repr

/-- `DiscoveredModule` from `src/types.ts`.  The source field `namespace` is a
Lean keyword and is rendered `nsp` here. -/
structure DiscoveredModule where
  fileAbs : String
  fileRelFromRoot : String
  nsp : String
  exports : List DiscoveredExport
deriving DecidableEq, Repr

/-- `RegenKind` from `src/types.ts`. -/
inductive RegenKind
  | serve
  | build
deriving DecidableEq, Repr

/-- The module cache `Map<string, DiscoveredModule>` as an association list
with JavaScript `Map` semantics (insertion order, in-place update). -/
abbrev ModuleCache := List (String × DiscoveredModule)

/-- `Map.get`. -/
def cacheGet (c : ModuleCache) (k : String) : Option DiscoveredModule :=
  (c.find? (fun p => p.1 == k)).map (fun p => p.2)

/-- `Map.set`: replace in place if the key exists, otherwise append. -/
def cacheSet (c : ModuleCache) (k : String) (v : DiscoveredModule) : ModuleCache :=
  if c.any (fun p => p.1 == k) then c.map (fun p => if p.1 == k then (k, v) else p)
  else c ++ [(k, v)]

/-- Return value of `Map.delete`: whether the key was present. -/
def cacheDeleteHad (c : ModuleCache) (k : String) : Bool := c.any (fun p => p.1 == k)

/-- Effect of `Map.delete` on the entries. -/
def cacheDelete (c : ModuleCache) (k : String) : ModuleCache := c.filter (fun p => p.1 != k)

/-- `Set.add` (JavaScript `Set`: no duplicates, insertion order). -/
def setAdd (l : List String) (x : String) : List String := if x ∈ l then l else l ++ [x]

/-- `Set.delete`. -/
def setDelete (l : List String) (x : String) : List String := l.filter (fun y => y != x)

/-- Environment of Node externals as seen by one regeneration cycle:
`fs.existsSync`, the parse pipeline `loadSourceFile`/`extractExports`
(`src/extractors.ts` is external to the provided sources; only its result
matters here), `path.relative(root, ·)` with backslash normalization,
`path.resolve(root, ·)`, and the `globSync` expansion of the configured
patterns. -/
structure FsEnv where
  fexists : String → Bool
  parse : String → List DiscoveredExport
  rel : String → String
  resolve : String → String
  glob : List String

/-- Mutable plugin state touched by a regeneration cycle
(`moduleCache`, `containerFiles`, `generatedOnce` in `src/index.ts`). -/
structure PluginState where
  moduleCache : ModuleCache
  containerFiles : List String
  generatedOnce : Bool
deriving DecidableEq, Repr

/-- Cold-start state: empty cache, no known files, no completed cycle. -/
def initialState : PluginState := { moduleCache := [], containerFiles := [], generatedOnce := false }

/-! ## Module discovery and refresh (`src/index.ts` lines 49-111) -/

/-- The `DiscoveredModule` built for file `abs` in `refreshModules`
(lines 96-101): relative path, namespace from the extension-stripped relative
path, and the extracted exports. -/
def computeModule (env : FsEnv) (abs : String) : DiscoveredModule :=
  let rel := env.rel abs
  { fileAbs := abs
    fileRelFromRoot := rel
    nsp := sanitizeNamespace (stripExt rel)
    exports := env.parse abs }

/-- One iteration of the `for (const absRaw of targets)` loop of
`refreshModules` (lines 84-108), threading `(moduleCache, dirty)`.  In the
zero-export branch the source reads `dirty = dirty || moduleCache.delete(abs)`;
`||` short-circuits, so the delete does not run when `dirty` is already
true. -/
def refreshStep (env : FsEnv) (acc : ModuleCache × Bool) (abs : String) : ModuleCache × Bool :=
  if env.fexists abs then
    if env.parse abs = [] then
      if acc.2 = true then acc
      else (cacheDelete acc.1 abs, cacheDeleteHad acc.1 abs)
    else
      let mod := computeModule env abs
      if cacheGet acc.1 abs = some mod then acc
      else (cacheSet acc.1 abs mod, true)
  else acc

/-- `const targets = changed?.length ? changed : Array.from(containerFiles)`. -/
def refreshTargets (changed? : Option (List String)) (containerFiles : List String) : List String :=
  match changed? with
  | some cs => if cs.isEmpty then containerFiles else cs
  | none => containerFiles

/-- `refreshModules(changed?, removed?)` (lines 70-111): purge removed paths
(each removal sets `dirty = true` unconditionally), then re-parse the changed
paths (or the whole universe), updating the cache; returns the new state and
the dirty flag. -/
def refreshModules (env : FsEnv) (s : PluginState)
    (changed? removed? : Option (List String)) : PluginState × Bool :=
  let rl := (removed?.getD [])
  let cache1 := rl.foldl cacheDelete s.moduleCache
  let cf1 := rl.foldl setDelete s.containerFiles
  let dirty1 := !rl.isEmpty
  let res := (refreshTargets changed? cf1).foldl (refreshStep env) (cache1, dirty1)
  ({ s with moduleCache := res.1, containerFiles := cf1 }, res.2)

/-! ## Packaging (`src/build-container-server.ts`) -/

/-- Observable actions of one regeneration cycle: the four generator calls of
`regenerate` and the write/bundle steps of `buildContainerServer`. -/
inductive Effect
  | genRuntime
  | genStubBatch
  | genWorkerFiles
  | genProxyFiles
  | writeEntry (outBase : String)
  | writePkg (outBase : String)
  | writeDockerfile (outBase : String)
  | esbuildBundle (outBase : String)
deriving DecidableEq, Repr

/-- `DockerOptions` from `src/types.ts`: generated Dockerfile options or a
fully custom Dockerfile path. -/
inductive DockerOptions
  | generated
  | custom (dockerfilePath : String)
deriving DecidableEq, Repr

/-- The slice of the resolved plugin configuration the claims depend on. -/
structure Config where
  dockerOpts : Option DockerOptions
deriving Repr

/-- Error message thrown by `buildContainerServer` for a declared-but-missing
custom Dockerfile (`src/build-container-server.ts` lines 144-148). -/
def dockerErrMsg (p : String) : String :=
  "[create-nodejs-fn] Custom Dockerfile not found: " ++ p

/-- `buildContainerServer` (`src/build-container-server.ts`): writes the
entry module and the dependency manifest, then either (custom Dockerfile)
throws if the declared file is missing or copies it — skipping the esbuild
bundle — or (generated Dockerfile) writes the Dockerfile and bundles the
server.  Returns the effects performed before returning or throwing, plus
the thrown error if any. -/
def buildContainerServer (env : FsEnv) (dockerOpts : Option DockerOptions) (outBase : String) :
    List Effect × Option String :=
  let pre := [Effect.writeEntry outBase, Effect.writePkg outBase]
  match dockerOpts with
  | some (.custom p) =>
      if env.fexists (env.resolve p) then (pre ++ [Effect.writeDockerfile outBase], none)
      else (pre, some (dockerErrMsg p))
  | _ => (pre ++ [Effect.writeDockerfile outBase, Effect.esbuildBundle outBase], none)

/-! ## Regeneration cycle (`src/index.ts` lines 113-177) -/

/-- The delta argument of `regenerate`/`enqueueRegeneration`. -/
structure Delta where
  changed : Option (List String)
  removed : Option (List String)
  force : Bool
deriving Repr

/-- `delta?.force` under JavaScript truthiness. -/
def deltaForce : Option Delta → Bool
  | some d => d.force
  | none => false

/-- `if (!generatedOnce) discoverFileList()` (lines 117-119): on the first
cycle, add every glob match to `containerFiles`. -/
def discoverIfNeeded (env : FsEnv) (s : PluginState) : PluginState :=
  if s.generatedOnce then s
  else { s with containerFiles := env.glob.foldl setAdd s.containerFiles }

/-- `regenerate(kind, delta)` (lines 113-177): discover on first call,
refresh, and either return as a no-op (nothing dirty, no force, a prior full
cycle completed) or run all generators, build the dev-target server artifact
and, for `kind == build`, a release-output copy.  Returns the updated state,
the effects performed, and the error propagated out of the cycle, if any
(state mutated before a throw persists; `generatedOnce` is set only at the
end of a fully successful cycle). -/
def regenerate (env : FsEnv) (cfg : Config) (kind : RegenKind) (delta? : Option Delta)
    (s : PluginState) : PluginState × List Effect × Option String :=
  let s0 := discoverIfNeeded env s
  let r := refreshModules env s0 (delta?.bind Delta.changed) (delta?.bind Delta.removed)
  let dirty := r.2 || deltaForce delta? || !s.generatedOnce
  if !dirty && s.generatedOnce then (r.1, [], none)
  else
    let gens := [Effect.genRuntime, Effect.genStubBatch, Effect.genWorkerFiles,
      Effect.genProxyFiles]
    let b1 := buildContainerServer env cfg.dockerOpts ".create-nodejs-fn"
    match b1.2 with
    | some e => (r.1, gens ++ b1.1, some e)
    | none =>
        match kind with
        | .serve => ({ r.1 with generatedOnce := true }, gens ++ b1.1, none)
        | .build =>
            let b2 := buildContainerServer env cfg.dockerOpts "dist/.create-nodejs-fn"
            match b2.2 with
            | some e => (r.1, gens ++ b1.1 ++ b2.1, some e)
            | none => ({ r.1 with generatedOnce := true }, gens ++ b1.1 ++ b2.1, none)

/-- Outcome of one queued cycle as observed by the caller of
`enqueueRegeneration` (lines 179-189): the cycle's error is caught by the
per-cycle `.catch` handler, logged, and never propagated — the returned
promise always fulfills. -/
structure QueueRunResult where
  state : PluginState
  effects : List Effect
  logged : Option String
  propagated : Option String
deriving Repr

/-- One cycle run through `enqueueRegeneration`'s
`.then(() => regenerate(kind, delta)).catch(err => console.error(...))`. -/
def enqueueRegenerationRun (env : FsEnv) (cfg : Config) (kind : RegenKind)
    (delta? : Option Delta) (s : PluginState) : QueueRunResult :=
  let r := regenerate env cfg kind delta? s
  { state := r.1, effects := r.2.1, logged := r.2.2, propagated := none }

/-! ## The serialized regeneration queue (`src/index.ts` lines 179-189)

`regenQueue = regenQueue.then(run).catch(log)` under the single-threaded
event loop: a queued cycle body is a sequence of atomic steps (the awaited
suspension points of `regenerate`); a step either succeeds or throws, a
throw aborts the rest of that body and is logged by the per-cycle `.catch`.
The machine below has one `current` slot (at most one body runs at a time),
a FIFO `pending` list, and interleaves external `enqueue` actions with
scheduler ticks arbitrarily. -/

/-- A queued cycle body: its enqueue id and its atomic steps
(`true` = the step completes, `false` = the step throws). -/
structure Cycle where
  id : Nat
  steps : List Bool
deriving DecidableEq, Repr

/-- Observable queue events. -/
inductive QEvent
  | start (id : Nat)
  | step (id : Nat)
  | done (id : Nat)
  | errorLogged (id : Nat)
deriving DecidableEq, Repr

/-- Queue machine state: FIFO of not-yet-started cycles and the at most one
currently running body (id and remaining steps). -/
structure QueueState where
  pending : List Cycle
  current : Option (Nat × List Bool)
deriving DecidableEq, Repr

/-- `enqueueRegeneration`: append the new cycle to the single ongoing chain. -/
def enqueueRegeneration (s : QueueState) (c : Cycle) : QueueState :=
  { s with pending := s.pending ++ [c] }

/-- One scheduler tick: advance the running body by one step (logging and
dropping the rest of the body on a throw), finish it, or start the next
pending cycle. -/
def tick1 (s : QueueState) : QueueState × List QEvent :=
  match s.current with
  | some (i, b :: rest) =>
      if b then ({ s with current := some (i, rest) }, [QEvent.step i])
      else ({ s with current := none }, [QEvent.errorLogged i])
  | some (i, []) => ({ s with current := none }, [QEvent.done i])
  | none =>
      match s.pending with
      | c :: rest => ({ pending := rest, current := some (c.id, c.steps) }, [QEvent.start c.id])
      | [] => (s, [])

/-- External actions: a new `enqueueRegeneration` call or a scheduler tick. -/
inductive QAction
  | enq (c : Cycle)
  | tick
deriving Repr

/-- Apply one action to (machine state, trace so far). -/
def doAct (st : QueueState × List QEvent) (a : QAction) : QueueState × List QEvent :=
  match a with
  | .enq c => (enqueueRegeneration st.1 c, st.2)
  | .tick => let r := tick1 st.1; (r.1, st.2 ++ r.2)

/-- Run a list of actions from a given machine configuration. -/
def runActs (acts : List QAction) (st : QueueState × List QEvent) : QueueState × List QEvent :=
  acts.foldl doAct st

/-- Iterate the scheduler `n` times. -/
def tickN : Nat → QueueState × List QEvent → QueueState × List QEvent
  | 0, st => st
  | n + 1, st => tickN n (doAct st .tick)

/-- Events produced by one cycle body after its start: the executed steps up
to the first throw, then `done` or `errorLogged`. -/
def runBody (i : Nat) : List Bool → List QEvent
  | [] => [QEvent.done i]
  | true :: rest => QEvent.step i :: runBody i rest
  | false :: _ => [QEvent.errorLogged i]

/-- The serialized trace segment of one enqueued cycle. -/
def cycleSegment (c : Cycle) : List QEvent := QEvent.start c.id :: runBody c.id c.steps

/-- Ticks needed to run one body to completion. -/
def bodyTicks : List Bool → Nat
  | [] => 1
  | true :: rest => bodyTicks rest + 1
  | false :: _ => 1

/-- Ticks needed to drain a pending list (one start tick plus the body ticks
per cycle). -/
def pendFuel : List Cycle → Nat
  | [] => 0
  | c :: rest => 1 + (bodyTicks c.steps + pendFuel rest)

/-- Ticks needed to drain a whole machine state. -/
def qFuel (s : QueueState) : Nat :=
  match s.current with
  | some (_, steps) => bodyTicks steps + pendFuel s.pending
  | none => pendFuel s.pending

/-- Remaining serialized trace of a pending list. -/
def drainPending : List Cycle → List QEvent
  | [] => []
  | c :: rest => cycleSegment c ++ drainPending rest

/-- Remaining serialized trace of a machine state. -/
def drainState (s : QueueState) : List QEvent :=
  (match s.current with
   | some (i, steps) => runBody i steps
   | none => []) ++ drainPending s.pending

/-- The cycles enqueued by an action sequence, in enqueue order. -/
def enqueuedOf (acts : List QAction) : List Cycle :=
  acts.filterMap (fun a => match a with | .enq c => some c | .tick => none)

/-- The idle machine. -/
def idleQueue : QueueState := { pending := [], current := none }

/-! ## Serve-side debounce coalescing (`src/index.ts` lines 225-249) -/

/-- The accumulating pending delta of the serve debounce stage
(`pendingChanged`, `pendingRemoved`, `pendingForce`, `pendingReason`). -/
structure PendingDelta where
  pendingChanged : List String
  pendingRemoved : List String
  pendingForce : Bool
  pendingReason : Option String
deriving DecidableEq, Repr

/-- State with nothing pending (cold start, or just after a timer fire). -/
def emptyPending : PendingDelta :=
  { pendingChanged := [], pendingRemoved := [], pendingForce := false, pendingReason := none }

/-- The merge step of `scheduleServeRegeneration` (lines 229-232): set-union
the changed and removed paths, OR the force flag, record the reason, (re)arm
the single debounce timer. -/
def scheduleServeRegeneration (st : PendingDelta) (reason : String) (delta : Delta) :
    PendingDelta :=
  { pendingChanged := (delta.changed.getD []).foldl setAdd st.pendingChanged
    pendingRemoved := (delta.removed.getD []).foldl setAdd st.pendingRemoved
    pendingForce := st.pendingForce || delta.force
    pendingReason := some reason }

/-- A burst of qualifying events merged within one debounce window. -/
def scheduleBurst (st : PendingDelta) (burst : List (String × Delta)) : PendingDelta :=
  burst.foldl (fun s rd => scheduleServeRegeneration s rd.1 rd.2) st

/-- `pendingChanged.size ? Array.from(pendingChanged) : undefined`. -/
def snapshotList (l : List String) : Option (List String) := if l.isEmpty then none else some l

/-- The delta snapshotted when the serve debounce timer fires (lines 237-239). -/
def serveSnapshot (st : PendingDelta) : Delta :=
  { changed := snapshotList st.pendingChanged
    removed := snapshotList st.pendingRemoved
    force := st.pendingForce }

/-- Timer fire (lines 235-248): snapshot and clear the pending delta, then
call `enqueueRegeneration("serve", snapshot)` exactly once.  `queued` is the
list of requests handed to the queue so far. -/
def fireServeTimer (st : PendingDelta) (queued : List (RegenKind × Delta)) :
    PendingDelta × List (RegenKind × Delta) :=
  (emptyPending, queued ++ [(RegenKind.serve, serveSnapshot st)])

/-! ## Dev-server restart coordination (`src/index.ts` lines 191-223) -/

/-- Observable events of the restart path. -/
inductive REvent
  | queuedCycle (id : Nat)
  | flagSet (b : Bool)
  | infoLogged
  | restartCalled
  | restartFailedLogged (e : String)
  | regenFailedLogged (e : String)
deriving DecidableEq, Repr

/-- JavaScript `try { body } catch (e) { handler } finally { finalizer }`
over an (events, thrown exception) denotation: events performed before a
throw are kept, the handler replaces the exception, the finalizer always
runs last. -/
def tryCatchFinally (body : List REvent × Option String)
    (handler : String → List REvent × Option String)
    (finalizer : List REvent) : List REvent × Option String :=
  match body with
  | (ev, none) => (ev ++ finalizer, none)
  | (ev, some e) =>
      let h := handler e
      (ev ++ h.1 ++ finalizer, h.2)

/-- The `try` body of the restart handler (lines 205-210): log the info
message, then `await serverForRestart?.restart()`, whose outcome is `res`. -/
def restartBody (res : Except String Unit) : List REvent × Option String :=
  match res with
  | .ok _ => ([REvent.infoLogged, REvent.restartCalled], none)
  | .error e => ([REvent.infoLogged, REvent.restartCalled], some e)

/-- The async callback chained on `regenQueue` when the restart timer fires
(lines 202-218): re-entrancy guard on `restartingDevServer`, set the flag,
try/catch/finally around the restart, release the flag in `finally`. -/
def restartHandler (restarting : Bool) (res : Except String Unit) :
    List REvent × Option String :=
  if restarting then ([], none)
  else
    let r := tryCatchFinally (restartBody res)
      (fun e => ([REvent.restartFailedLogged e], none))
      [REvent.flagSet false]
    (REvent.flagSet true :: r.1, r.2)

/-- Whole restart-timer fire (lines 199-222): the handler runs only after
the regeneration queue settles (`regenQueue.then(...)`), so its events
follow the queue trace `qt`; a rejection of the chained promise is caught by
the trailing `.catch` and logged. -/
def restartTimerFire (qt : List REvent) (restarting : Bool) (res : Except String Unit) :
    List REvent × Option String :=
  let h := restartHandler restarting res
  match h.2 with
  | some e => (qt ++ h.1 ++ [REvent.regenFailedLogged e], none)
  | none => (qt ++ h.1, none)

/-- Value of the `restartingDevServer` flag after replaying the `flagSet`
events of a trace. -/
def flagAfter (init : Bool) (tr : List REvent) : Bool :=
  tr.foldl (fun b e => match e with | REvent.flagSet v => v | _ => b) init

/-! ## Generated proxy wrapper and container-key protocol
(`src/generate-proxy-files.ts` lines 42-81, runtime protocol of spec §4.5) -/

/-- The call context `{ args }` built by the wrapper from the actual
arguments. -/
structure CallCtx (α : Type) where
  args : List α

/-- A TypeScript `string | Promise<string>`: a synchronously available or
deferred value. -/
inductive PVal (α : Type)
  | sync (a : α)
  | async (a : α)

/-- Settle a possibly-deferred value (`await`). -/
def PVal.await {α : Type} : PVal α → α
  | .sync a => a
  | .async a => a

/-- The runtime `ContainerKey` type (generated runtime module): a literal
key string or a (possibly deferred) function of the call context. -/
inductive ContainerKeyV (α : Type)
  | lit (s : String)
  | fn (f : CallCtx α → PVal String)

/-- A settled promise carrying its value. -/
structure Deferred (α : Type) where
  val : α

/-- A JavaScript value that is observably either immediate or a promise. -/
inductive JsVal (β : Type)
  | imm (b : β)
  | promise (b : β)

/-- Whether a `JsVal` is a promise. -/
def JsVal.isPromise {β : Type} : JsVal β → Bool
  | .imm _ => false
  | .promise _ => true

/-- The dispatch side: the key-addressed backend resolution (`containers`
client with `containerKey`; spec §4.5: a key string always routes to the
same backend instance) and, per backend, the flattened dispatch-surface
method `namespace__exportName` forwarding to the original export
(`src/build-container-server.ts` lines 82-93). -/
structure DispatchModel (α β : Type) where
  backendOf : String → Nat
  impl : Nat → String → String → List α → β

/-- Modelled from the spec: `__resolveContainerKey`, emitted into the
generated context module by `generate-worker-files.ts` (not among the
provided sources).  Per spec §4.5 it accepts a possibly-synchronous or
deferred fallback key (the evaluated routing-key expression, or the literal
`"default"`) and returns a deferred concrete key string. -/
def resolveContainerKey {α : Type} (nsp exName : String) (ctx : CallCtx α)
    (fallback : ContainerKeyV α) : Deferred String :=
  ⟨match fallback with
    | .lit s => s
    | .fn f => (f ctx).await⟩

/-- The body of a generated proxy wrapper (`src/generate-proxy-files.ts`
lines 63-74): build `ctx = { args }`, evaluate the spliced routing-key
expression (`undefined` when the export declared none, hence
`localKey ?? "default"`), resolve it through `__resolveContainerKey`, and
return `Promise.resolve(keyP).then(key => containers({ containerKey: key
}).namespace.name(...args))`. -/
def proxyWrapper {α β : Type} (M : DispatchModel α β) (nsp exName : String)
    (keyExpr : Option (ContainerKeyV α)) (args : List α) : JsVal β :=
  let ctx : CallCtx α := ⟨args⟩
  let localKey := keyExpr
  let keyP := resolveContainerKey nsp exName ctx (localKey.getD (ContainerKeyV.lit "default"))
  .promise (M.impl (M.backendOf keyP.val) nsp exName args)

/-- Spec-side evaluation of a routing-key expression: the literal value, the
function applied to the context (awaited), or the fixed key `"default"` when
none was declared. -/
def evalKeyExpr {α : Type} (keyExpr : Option (ContainerKeyV α)) (ctx : CallCtx α) : String :=
  match keyExpr with
  | none => "default"
  | some (.lit s) => s
  | some (.fn f) => (f ctx).await

/-! ## Concrete instances used by witnesses and counterexamples -/

/-- A small concrete environment: one container module `a` with one export. -/
def envA : FsEnv :=
  { fexists := fun s => s == "a"
    parse := fun s => if s == "a" then [{ name := "f", containerKeyExpr := none }] else []
    rel := fun s => s
    resolve := fun s => s
    glob := ["a"] }

/-- Environment for the missing-custom-Dockerfile scenario: nothing exists. -/
def envC9 : FsEnv :=
  { fexists := fun _ => false
    parse := fun _ => []
    rel := fun s => s
    resolve := fun s => s
    glob := [] }

/-- Configuration declaring a custom Dockerfile path. -/
def cfgC9 : Config := { dockerOpts := some (.custom "Dockerfile.custom") }

/-- Configuration with generated Docker options. -/
def cfgGen : Config := { dockerOpts := some .generated }

/-- A concrete dispatch model over `Nat` arguments and results. -/
def M0 : DispatchModel Nat Nat :=
  { backendOf := fun _ => 0
    impl := fun _ _ _ args => args.sum }

/-- Environment in which file `b` exists but parses to zero qualifying
exports. -/
def envB : FsEnv :=
  { fexists := fun s => s == "b"
    parse := fun _ => []
    rel := fun s => s
    resolve := fun s => s
    glob := ["b"] }

/-- A state whose cache still holds a descriptor for `b` (from an earlier
parse that found an export). -/
def stateB : PluginState :=
  { moduleCache := [("b",
      { fileAbs := "b", fileRelFromRoot := "b", nsp := "b",
        exports := [{ name := "f", containerKeyExpr := none }] })]
    containerFiles := ["b"]
    generatedOnce := true }

/-- The cache already agrees with the file system at `f`: re-parsing `f`
yields exactly the cached situation (no entry for a missing or zero-export
file, the deep-equal descriptor otherwise). -/
def fixedAt (env : FsEnv) (c : ModuleCache) (f : String) : Prop :=
  env.fexists f = true →
    (if env.parse f = [] then cacheGet c f = none
     else cacheGet c f = some (computeModule env f))

/-! # Theorems -/

/-! ## Sanitizer injectivity -/

theorem digitsVal_natDigitsAux (fuel : Nat) :
    ∀ n : Nat, n ≤ fuel → digitsVal (natDigitsAux fuel n) = n := by
  induction fuel with
  | zero =>
      intro n hn
      have : n = 0 := Nat.le_zero.mp hn
      simp [this, natDigitsAux, digitsVal]
  | succ fuel ih =>
      intro n hn
      by_cases h0 : n = 0
      · simp [h0, natDigitsAux, digitsVal]
      · have hdiv : n / 10 ≤ fuel := by
          have := Nat.div_lt_self (Nat.pos_of_ne_zero h0) (by omega : 1 < 10)
          omega
        simp only [natDigitsAux, h0, if_false, digitsVal, ih _ hdiv]
        omega

theorem digitsVal_natDigits (n : Nat) : digitsVal (natDigits n) = n :=
  digitsVal_natDigitsAux n n (Nat.le_refl n)

theorem natDigits_inj {m n : Nat} (h : natDigits m = natDigits n) : m = n := by
  have := congrArg digitsVal h
  rwa [digitsVal_natDigits, digitsVal_natDigits] at this

theorem natDigitsAux_lt (fuel : Nat) :
    ∀ n d : Nat, d ∈ natDigitsAux fuel n → d < 10 := by
  induction fuel with
  | zero => intro n d hd; simp [natDigitsAux] at hd
  | succ fuel ih =>
      intro n d hd
      by_cases h0 : n = 0
      · simp [h0, natDigitsAux] at hd
      · simp only [natDigitsAux, h0, if_false, List.mem_cons] at hd
        rcases hd with h | h
        · omega
        · exact ih _ _ h

theorem natDigits_lt {n d : Nat} (hd : d ∈ natDigits n) : d < 10 :=
  natDigitsAux_lt n n d hd

theorem digitChar_isDigit {d : Nat} (h : d < 10) : (digitChar d).isDigit = true := by
  unfold digitChar
  interval_cases d <;> decide

theorem digitChar_toNat {d : Nat} (h : d < 10) : (digitChar d).toNat = 48 + d := by
  unfold digitChar
  interval_cases d <;> decide

theorem char_toNat_inj {a b : Char} (h : a.toNat = b.toNat) : a = b := by
  have := congrArg Char.ofNat h
  rwa [Char.ofNat_toNat, Char.ofNat_toNat] at this

theorem map_digitChar_inj :
    ∀ a b : List Nat, (∀ d ∈ a, d < 10) → (∀ d ∈ b, d < 10) →
      a.map digitChar = b.map digitChar → a = b := by
  intro a
  induction a with
  | nil => intro b _ _ h; cases b <;> simp_all
  | cons x xs ih =>
      intro b ha hb h
      cases b with
      | nil => simp at h
      | cons y ys =>
          simp only [List.map_cons, List.cons.injEq] at h
          have hx : x < 10 := ha x (by simp)
          have hy : y < 10 := hb y (by simp)
          have hxy : x = y := by
            have := congrArg Char.toNat h.1
            rw [digitChar_toNat hx, digitChar_toNat hy] at this
            omega
          have := ih ys (fun d hd => ha d (by simp [hd])) (fun d hd => hb d (by simp [hd])) h.2
          simp [hxy, this]

theorem digits_split (p : Char → Bool) (hp : p '_' = false) :
    ∀ (ds₁ : List Char) (ds₂ r₁ r₂ : List Char),
      (∀ c ∈ ds₁, p c = true) → (∀ c ∈ ds₂, p c = true) →
      ds₁ ++ '_' :: r₁ = ds₂ ++ '_' :: r₂ → ds₁ = ds₂ ∧ r₁ = r₂ := by
  intro ds₁
  induction ds₁ with
  | nil =>
      intro ds₂ r₁ r₂ _ h₂ h
      cases ds₂ with
      | nil => simpa using h
      | cons c cs =>
          simp only [List.nil_append, List.cons_append, List.cons.injEq] at h
          have : p c = true := h₂ c (by simp)
          rw [← h.1] at this
          rw [this] at hp
          cases hp
  | cons c cs ih =>
      intro ds₂ r₁ r₂ h₁ h₂ h
      cases ds₂ with
      | nil =>
          simp only [List.cons_append, List.nil_append, List.cons.injEq] at h
          have : p c = true := h₁ c (by simp)
          rw [h.1] at this
          rw [this] at hp
          cases hp
      | cons d ds =>
          simp only [List.cons_append, List.cons.injEq] at h
          obtain ⟨hcd, htail⟩ := h
          have := ih ds r₁ r₂ (fun x hx => h₁ x (by simp [hx]))
            (fun x hx => h₂ x (by simp [hx])) htail
          simp [hcd, this.1, this.2]

theorem encChar_ne_nil (c : Char) : encChar c ≠ [] := by
  unfold encChar
  by_cases h : isIdentChar c <;> simp [h]

theorem isIdentChar_underscore : isIdentChar '_' = false := by decide

theorem mem_digitBlock_isDigit {n : Nat} {c : Char}
    (hc : c ∈ (natDigits n).map digitChar) : c.isDigit = true := by
  rcases List.mem_map.mp hc with ⟨d, hd, rfl⟩
  exact digitChar_isDigit (natDigits_lt hd)

theorem encChar_of_ident {c : Char} (h : isIdentChar c = true) : encChar c = [c] := by
  simp [encChar, h]

theorem encChar_of_escaped {c : Char} (h : isIdentChar c = false) :
    encChar c = '_' :: ((natDigits c.toNat).map digitChar ++ ['_']) := by
  simp [encChar, h]

theorem encChar_append_inj (c₁ c₂ : Char) (r₁ r₂ : List Char)
    (h : encChar c₁ ++ r₁ = encChar c₂ ++ r₂) : c₁ = c₂ ∧ r₁ = r₂ := by
  cases hb₁ : isIdentChar c₁ <;> cases hb₂ : isIdentChar c₂
  · rw [encChar_of_escaped hb₁, encChar_of_escaped hb₂] at h
    simp only [List.cons_append, List.cons.injEq] at h
    have hsplit : (natDigits c₁.toNat).map digitChar ++ '_' :: r₁ =
        (natDigits c₂.toNat).map digitChar ++ '_' :: r₂ := by
      have := h.2
      simpa [List.append_assoc] using this
    have hs := digits_split Char.isDigit (by decide) _ _ _ _
      (fun c hc => mem_digitBlock_isDigit hc) (fun c hc => mem_digitBlock_isDigit hc) hsplit
    refine ⟨?_, hs.2⟩
    have hdig : natDigits c₁.toNat = natDigits c₂.toNat :=
      map_digitChar_inj _ _ (fun d hd => natDigits_lt hd) (fun d hd => natDigits_lt hd) hs.1
    exact char_toNat_inj (natDigits_inj hdig)
  · exfalso
    rw [encChar_of_escaped hb₁, encChar_of_ident hb₂] at h
    simp only [List.cons_append, List.singleton_append, List.cons.injEq] at h
    rw [← h.1] at hb₂
    rw [isIdentChar_underscore] at hb₂
    cases hb₂
  · exfalso
    rw [encChar_of_ident hb₁, encChar_of_escaped hb₂] at h
    simp only [List.cons_append, List.singleton_append, List.cons.injEq] at h
    rw [h.1] at hb₁
    rw [isIdentChar_underscore] at hb₁
    cases hb₁
  · rw [encChar_of_ident hb₁, encChar_of_ident hb₂] at h
    simp only [List.singleton_append, List.cons.injEq] at h
    exact ⟨h.1, h.2⟩

theorem encChar_flatten_inj :
    ∀ l₁ l₂ : List Char, (l₁.map encChar).flatten = (l₂.map encChar).flatten → l₁ = l₂ := by
  intro l₁
  induction l₁ with
  | nil =>
      intro l₂ h
      cases l₂ with
      | nil => rfl
      | cons c cs =>
          exfalso
          simp only [List.map_nil, List.flatten_nil, List.map_cons, List.flatten_cons] at h
          exact encChar_ne_nil c (by
            cases he : encChar c with
            | nil => rfl
            | cons x xs => rw [he] at h; simp at h)
  | cons c cs ih =>
      intro l₂ h
      cases l₂ with
      | nil =>
          exfalso
          simp only [List.map_cons, List.flatten_cons, List.map_nil, List.flatten_nil] at h
          exact encChar_ne_nil c (by
            cases he : encChar c with
            | nil => rfl
            | cons x xs => rw [he] at h; simp at h)
      | cons d ds =>
          simp only [List.map_cons, List.flatten_cons] at h
          obtain ⟨hcd, htail⟩ := encChar_append_inj c d _ _ h
          rw [hcd, ih ds htail]

theorem sanitizeNamespace_inj {s₁ s₂ : String}
    (h : sanitizeNamespace s₁ = sanitizeNamespace s₂) : s₁ = s₂ := by
  have hd : (s₁.data.map encChar).flatten = (s₂.data.map encChar).flatten :=
    congrArg String.data h
  have : s₁.data = s₂.data := encChar_flatten_inj _ _ hd
  cases s₁
  cases s₂
  exact congrArg String.mk this

/-! ## Module cache lemmas -/

theorem cacheGet_nil (k : String) : cacheGet [] k = none := rfl

theorem cacheGet_cons (p : String × DiscoveredModule) (c : ModuleCache) (k : String) :
    cacheGet (p :: c) k = if p.1 = k then some p.2 else cacheGet c k := by
  simp only [cacheGet, List.find?_cons]
  cases hb : (p.1 == k)
  · have : ¬p.1 = k := by simpa using hb
    simp [this]
  · have : p.1 = k := by simpa using hb
    simp [this]

theorem cacheDeleteHad_eq_false {c : ModuleCache} {k : String}
    (h : cacheGet c k = none) : cacheDeleteHad c k = false := by
  induction c with
  | nil => rfl
  | cons p c ih =>
      rw [cacheGet_cons] at h
      by_cases hp : p.1 = k
      · simp [hp] at h
      · simp only [hp, if_false] at h
        simp [cacheDeleteHad, List.any_cons, hp, ih h]
        simpa [cacheDeleteHad] using ih h

theorem cacheDeleteHad_eq_true {c : ModuleCache} {k : String}
    (h : (cacheGet c k).isSome = true) : cacheDeleteHad c k = true := by
  induction c with
  | nil => simp [cacheGet_nil] at h
  | cons p c ih =>
      rw [cacheGet_cons] at h
      by_cases hp : p.1 = k
      · simp [cacheDeleteHad, List.any_cons, hp]
      · simp only [hp, if_false] at h
        have hrest := ih h
        simp only [cacheDeleteHad, List.any_cons] at hrest ⊢
        simp [hrest]

theorem cacheDelete_of_get_none {c : ModuleCache} {k : String}
    (h : cacheGet c k = none) : cacheDelete c k = c := by
  apply List.filter_eq_self.mpr
  intro p hp
  induction c with
  | nil => cases hp
  | cons q c ih =>
      rw [cacheGet_cons] at h
      by_cases hq : q.1 = k
      · simp [hq] at h
      · rcases List.mem_cons.mp hp with rfl | hmem
        · simpa using hq
        · exact ih (by simpa [hq] using h) hmem

theorem cacheGet_delete_self (c : ModuleCache) (k : String) :
    cacheGet (cacheDelete c k) k = none := by
  induction c with
  | nil => rfl
  | cons p c ih =>
      by_cases hp : p.1 = k
      · simpa [cacheDelete, List.filter_cons, hp] using ih
      · simp only [cacheDelete, List.filter_cons] at ih ⊢
        have hb : (p.1 != k) = true := by simpa using hp
        simp only [hb, if_true]
        rw [cacheGet_cons]
        simp [hp, ih]

theorem cacheGet_delete_ne (c : ModuleCache) {k j : String} (h : k ≠ j) :
    cacheGet (cacheDelete c k) j = cacheGet c j := by
  induction c with
  | nil => rfl
  | cons p c ih =>
      simp only [cacheDelete, List.filter_cons] at ih ⊢
      by_cases hp : p.1 = k
      · have hb : (p.1 != k) = false := by simpa using hp
        simp only [hb, if_false]
        rw [cacheGet_cons]
        have : ¬p.1 = j := by rw [hp]; exact h
        simp [this, ih]
      · have hb : (p.1 != k) = true := by simpa using hp
        simp only [hb, if_true]
        rw [cacheGet_cons, cacheGet_cons]
        by_cases hj : p.1 = j
        · simp [hj]
        · simp [hj, ih]

theorem cacheGet_append (c d : ModuleCache) (k : String) :
    cacheGet (c ++ d) k =
      match cacheGet c k with
      | some v => some v
      | none => cacheGet d k := by
  induction c with
  | nil => simp [cacheGet_nil]
  | cons p c ih =>
      simp only [List.cons_append]
      rw [cacheGet_cons, cacheGet_cons]
      by_cases hp : p.1 = k
      · simp [hp]
      · simp [hp, ih]

theorem cacheGet_none_of_any_false {c : ModuleCache} {k : String}
    (ha : c.any (fun p => p.1 == k) = false) : cacheGet c k = none := by
  induction c with
  | nil => rfl
  | cons p c ih =>
      simp only [List.any_cons, Bool.or_eq_false_iff] at ha
      rw [cacheGet_cons]
      have : ¬p.1 = k := by simpa using ha.1
      simp [this, ih ha.2]

theorem cacheGet_map_update_self (c : ModuleCache) {k : String} (v : DiscoveredModule)
    (ha : c.any (fun p => p.1 == k) = true) :
    cacheGet (c.map (fun p => if p.1 == k then (k, v) else p)) k = some v := by
  induction c with
  | nil => simp [List.any_cons] at ha
  | cons p c ih =>
      simp only [List.any_cons, Bool.or_eq_true] at ha
      simp only [List.map_cons]
      by_cases hp : p.1 = k
      · have hb : (p.1 == k) = true := by simpa using hp
        simp only [hb, if_true]
        rw [cacheGet_cons]
        simp
      · have hb : (p.1 == k) = false := by simpa using hp
        simp only [hb, Bool.false_eq_true, if_false]
        rw [cacheGet_cons]
        rcases ha with h | h
        · rw [hb] at h; cases h
        · rw [if_neg hp]
          exact ih h

theorem cacheGet_map_update_ne (c : ModuleCache) {k j : String} (v : DiscoveredModule)
    (h : k ≠ j) :
    cacheGet (c.map (fun p => if p.1 == k then (k, v) else p)) j = cacheGet c j := by
  induction c with
  | nil => rfl
  | cons p c ih =>
      simp only [List.map_cons]
      by_cases hp : p.1 = k
      · have hb : (p.1 == k) = true := by simpa using hp
        simp only [hb, if_true]
        rw [cacheGet_cons, cacheGet_cons]
        have h2 : ¬(p.1 = j) := by rw [hp]; exact h
        rw [if_neg (show ¬((k, v).1 = j) from h), if_neg h2]
        exact ih
      · have hb : (p.1 == k) = false := by simpa using hp
        simp only [hb, Bool.false_eq_true, if_false]
        rw [cacheGet_cons, cacheGet_cons]
        by_cases hj : p.1 = j
        · simp [hj]
        · rw [if_neg hj, if_neg hj]
          exact ih

theorem cacheGet_set_self (c : ModuleCache) (k : String) (v : DiscoveredModule) :
    cacheGet (cacheSet c k v) k = some v := by
  unfold cacheSet
  cases ha : c.any (fun p => p.1 == k)
  · simp only [Bool.false_eq_true, if_false]
    rw [cacheGet_append]
    rw [cacheGet_none_of_any_false ha]
    rw [cacheGet_cons]
    simp
  · simpa only [if_true] using cacheGet_map_update_self c v ha

theorem cacheGet_set_ne (c : ModuleCache) {k j : String} (v : DiscoveredModule) (h : k ≠ j) :
    cacheGet (cacheSet c k v) j = cacheGet c j := by
  unfold cacheSet
  cases ha : c.any (fun p => p.1 == k)
  · simp only [Bool.false_eq_true, if_false]
    rw [cacheGet_append]
    have hkj : cacheGet [(k, v)] j = none := by
      rw [cacheGet_cons]
      simp [h, cacheGet_nil]
    cases hc : cacheGet c j
    · exact hkj
    · rfl
  · simpa only [if_true] using cacheGet_map_update_ne c v h

/-! ## Refresh-loop lemmas -/

theorem refreshStep_dirty_mono (env : FsEnv) (acc : ModuleCache × Bool) (f : String)
    (h : acc.2 = true) : (refreshStep env acc f).2 = true := by
  unfold refreshStep
  by_cases hex : env.fexists f = true
  · by_cases hp : env.parse f = []
    · simp [hex, hp, h]
    · by_cases hc : cacheGet acc.1 f = some (computeModule env f)
      · simp [hex, hp, hc, h]
      · simp [hex, hp, hc]
  · simp [hex, h]

theorem foldl_refreshStep_dirty (env : FsEnv) :
    ∀ (L : List String) (acc : ModuleCache × Bool), acc.2 = true →
      (L.foldl (refreshStep env) acc).2 = true := by
  intro L
  induction L with
  | nil => intro acc h; simpa using h
  | cons a L ih => intro acc h; exact ih _ (refreshStep_dirty_mono env acc a h)

theorem refreshStep_get_self (env : FsEnv) (acc : ModuleCache × Bool) (f : String) :
    cacheGet (refreshStep env acc f).1 f =
      if env.fexists f then
        (if env.parse f = [] then
          (if acc.2 = true then cacheGet acc.1 f else none)
         else some (computeModule env f))
      else cacheGet acc.1 f := by
  unfold refreshStep
  by_cases hex : env.fexists f = true
  · by_cases hp : env.parse f = []
    · cases hd : acc.2
      · simp [hex, hp, hd, cacheGet_delete_self]
      · simp [hex, hp, hd]
    · by_cases hc : cacheGet acc.1 f = some (computeModule env f)
      · simp [hex, hp, hc]
      · simp [hex, hp, hc, cacheGet_set_self]
  · simp [hex]

theorem refreshStep_get_other (env : FsEnv) (acc : ModuleCache × Bool) {g f : String}
    (h : g ≠ f) : cacheGet (refreshStep env acc g).1 f = cacheGet acc.1 f := by
  unfold refreshStep
  by_cases hex : env.fexists g = true
  · by_cases hp : env.parse g = []
    · cases hd : acc.2
      · simp [hex, hp, hd, cacheGet_delete_ne _ h]
      · simp [hex, hp, hd]
    · by_cases hc : cacheGet acc.1 g = some (computeModule env g)
      · simp [hex, hp, hc]
      · simp [hex, hp, hc, cacheGet_set_ne _ _ h]
  · simp [hex]

theorem cacheGet_foldl_not_mem (env : FsEnv) :
    ∀ (L : List String) (acc : ModuleCache × Bool) (f : String), f ∉ L →
      cacheGet ((L.foldl (refreshStep env) acc).1) f = cacheGet acc.1 f := by
  intro L
  induction L with
  | nil => intro acc f _; rfl
  | cons a L ih =>
      intro acc f hf
      have ha : a ≠ f := fun he => hf (by simp [he])
      have hL : f ∉ L := fun hm => hf (by simp [hm])
      simp only [List.foldl_cons]
      rw [ih _ f hL, refreshStep_get_other env acc ha]

theorem cacheGet_foldl_mem (env : FsEnv) :
    ∀ (L : List String) (acc : ModuleCache × Bool) (f : String), f ∈ L →
      (env.parse f = [] → cacheGet acc.1 f = none) →
      cacheGet ((L.foldl (refreshStep env) acc).1) f =
        if env.fexists f then
          (if env.parse f = [] then none else some (computeModule env f))
        else cacheGet acc.1 f := by
  intro L
  induction L with
  | nil => intro acc f hf _; cases hf
  | cons a L ih =>
      intro acc f hf h0
      have hstep0 : env.parse f = [] → cacheGet (refreshStep env acc a).1 f = none := by
        intro hp
        by_cases ha : a = f
        · subst ha
          rw [refreshStep_get_self]
          by_cases hex : env.fexists a = true
          · cases hd : acc.2 <;> simp [hex, hp, hd, h0 hp]
          · simp [hex, h0 hp]
        · rw [refreshStep_get_other env acc ha]
          exact h0 hp
      simp only [List.foldl_cons]
      by_cases hL : f ∈ L
      · rw [ih _ f hL hstep0]
        by_cases hex : env.fexists f = true
        · simp [hex]
        · simp only [hex, Bool.false_eq_true, if_false]
          by_cases ha : a = f
          · subst ha
            rw [refreshStep_get_self]
            simp [hex]
          · rw [refreshStep_get_other env acc ha]
      · have ha : a = f := by
          rcases List.mem_cons.mp hf with h | h
          · exact h.symm
          · exact absurd h hL
        subst ha
        rw [cacheGet_foldl_not_mem env L _ a hL, refreshStep_get_self]
        by_cases hex : env.fexists a = true
        · by_cases hp : env.parse a = []
          · cases hd : acc.2 <;> simp [hex, hp, hd, h0 hp]
          · simp [hex, hp]
        · simp [hex]

theorem fixedAt_foldl_mem (env : FsEnv) (L : List String) (acc : ModuleCache × Bool)
    (f : String) (hf : f ∈ L) (h0 : env.parse f = [] → cacheGet acc.1 f = none) :
    fixedAt env ((L.foldl (refreshStep env) acc).1) f := by
  intro hex
  by_cases hp : env.parse f = []
  · simp [hp, cacheGet_foldl_mem env L acc f hf h0, hex]
  · simp [hp, cacheGet_foldl_mem env L acc f hf h0, hex]

theorem refreshStep_of_fixed (env : FsEnv) (c : ModuleCache) (f : String)
    (hfix : fixedAt env c f) (d : Bool) : refreshStep env (c, d) f = (c, d) := by
  unfold refreshStep
  by_cases hex : env.fexists f = true
  · have hfx := hfix hex
    by_cases hp : env.parse f = []
    · rw [hp] at hfx
      simp only [if_true] at hfx
      have h1 : cacheDeleteHad c f = false := cacheDeleteHad_eq_false hfx
      have h2 : cacheDelete c f = c := cacheDelete_of_get_none hfx
      cases d
      · simp [hex, hp, h1, h2]
      · simp [hex, hp]
    · simp only [hp, if_false] at hfx
      simp [hex, hp, hfx]
  · simp [hex]

theorem foldl_refreshStep_fixed (env : FsEnv) :
    ∀ (L : List String) (c : ModuleCache) (d : Bool), (∀ f ∈ L, fixedAt env c f) →
      L.foldl (refreshStep env) (c, d) = (c, d) := by
  intro L
  induction L with
  | nil => intro c d _; rfl
  | cons a L ih =>
      intro c d hfix
      simp only [List.foldl_cons]
      rw [refreshStep_of_fixed env c a (hfix a (by simp)) d]
      exact ih c d (fun f hf => hfix f (by simp [hf]))

/-! ## `refreshModules` unfolding lemmas -/

theorem refreshModules_single (env : FsEnv) (s : PluginState) (f : String) :
    refreshModules env s (some [f]) none =
      ({ s with moduleCache := (refreshStep env (s.moduleCache, false) f).1 },
        (refreshStep env (s.moduleCache, false) f).2) := rfl

theorem refreshModules_changed (env : FsEnv) (s : PluginState) (cs : List String)
    (h : cs ≠ []) :
    refreshModules env s (some cs) none =
      ({ s with moduleCache := (cs.foldl (refreshStep env) (s.moduleCache, false)).1 },
        (cs.foldl (refreshStep env) (s.moduleCache, false)).2) := by
  cases cs with
  | nil => exact absurd rfl h
  | cons a l => rfl

theorem refreshModules_snd (env : FsEnv) (s : PluginState)
    (changed? removed? : Option (List String)) :
    (refreshModules env s changed? removed?).2 =
      ((refreshTargets changed? ((removed?.getD []).foldl setDelete s.containerFiles)).foldl
        (refreshStep env)
        ((removed?.getD []).foldl cacheDelete s.moduleCache, !(removed?.getD []).isEmpty)).2 :=
  rfl

/-! ## Claim C10 -/

/-- Claim C10: a call to `refreshModules` with a non-empty removed list
returns dirty unconditionally — each removal sets `dirty = true` whether or
not the removed path was cached or tracked, and the subsequent re-parse loop
only ever keeps an already-true dirty flag. -/
theorem claim_C10_removed_always_dirty (env : FsEnv) (s : PluginState)
    (changed? : Option (List String)) (rs : List String) (h : rs ≠ []) :
    (refreshModules env s changed? (some rs)).2 = true := by
  rw [refreshModules_snd]
  apply foldl_refreshStep_dirty
  cases rs with
  | nil => exact absurd rfl h
  | cons a l => rfl

/-- Claim C10, witness: removing the never-tracked path `ghost` in the empty
initial state still reports dirty. -/
theorem claim_C10_removed_always_dirty_witness :
    (["ghost"] : List String) ≠ [] ∧
      (refreshModules envA initialState none (some ["ghost"])).2 = true :=
  ⟨by decide,
    claim_C10_removed_always_dirty envA initialState none ["ghost"] (by decide)⟩

/-! ## Membership lemmas for the cache invariant -/

theorem mem_cacheDelete {c : ModuleCache} {k : String} {p : String × DiscoveredModule}
    (h : p ∈ cacheDelete c k) : p ∈ c := (List.mem_filter.mp h).1

theorem mem_foldl_cacheDelete :
    ∀ (rl : List String) (c : ModuleCache) (p : String × DiscoveredModule),
      p ∈ rl.foldl cacheDelete c → p ∈ c := by
  intro rl
  induction rl with
  | nil => intro c p h; exact h
  | cons a rl ih => intro c p h; exact mem_cacheDelete (ih _ p h)

theorem mem_cacheSet {c : ModuleCache} {k : String} {v : DiscoveredModule}
    {p : String × DiscoveredModule} (h : p ∈ cacheSet c k v) : p = (k, v) ∨ p ∈ c := by
  unfold cacheSet at h
  by_cases ha : c.any (fun p => p.1 == k) = true
  · simp only [ha, if_true] at h
    rcases List.mem_map.mp h with ⟨q, hq, hpq⟩
    by_cases hk : q.1 = k
    · left
      rw [← hpq]
      simp [hk]
    · right
      rw [← hpq]
      simpa [hk] using hq
  · simp only [ha, if_false] at h
    rcases List.mem_append.mp h with h | h
    · right; exact h
    · left; simpa using h

theorem refreshStep_exports_invariant (env : FsEnv) (acc : ModuleCache × Bool) (a : String)
    (hinv : ∀ p ∈ acc.1, p.2.exports ≠ []) :
    ∀ p ∈ (refreshStep env acc a).1, p.2.exports ≠ [] := by
  intro p hp
  unfold refreshStep at hp
  by_cases hex : env.fexists a = true
  · by_cases hpar : env.parse a = []
    · cases hd : acc.2
      · simp only [hex, hpar, hd, Bool.false_eq_true, if_true, if_false] at hp
        exact hinv p (mem_cacheDelete hp)
      · simp only [hex, hpar, hd, if_true] at hp
        exact hinv p hp
    · by_cases hc : cacheGet acc.1 a = some (computeModule env a)
      · simp only [hex, hpar, hc, if_true, if_false] at hp
        exact hinv p hp
      · simp only [hex, hpar, hc, if_true, if_false] at hp
        rcases mem_cacheSet hp with rfl | hmem
        · simpa [computeModule] using hpar
        · exact hinv p hmem
  · simp only [hex, Bool.false_eq_true, if_false] at hp
    exact hinv p hp

theorem foldl_refreshStep_exports_invariant (env : FsEnv) :
    ∀ (L : List String) (acc : ModuleCache × Bool), (∀ p ∈ acc.1, p.2.exports ≠ []) →
      ∀ p ∈ (L.foldl (refreshStep env) acc).1, p.2.exports ≠ [] := by
  intro L
  induction L with
  | nil => intro acc h; exact h
  | cons a L ih =>
      intro acc h
      exact ih _ (refreshStep_exports_invariant env acc a h)

theorem refreshModules_fst_cache (env : FsEnv) (s : PluginState)
    (changed? removed? : Option (List String)) :
    (refreshModules env s changed? removed?).1.moduleCache =
      ((refreshTargets changed? ((removed?.getD []).foldl setDelete s.containerFiles)).foldl
        (refreshStep env)
        ((removed?.getD []).foldl cacheDelete s.moduleCache, !(removed?.getD []).isEmpty)).1 :=
  rfl

/-! ## Claim C3 -/

/-- Claim C3: for a tracked file that exists and re-parses to at least one
qualifying export, refreshing exactly that file reports dirty iff the newly
computed descriptor is not deep-equal to the cached one (or none is cached);
afterwards the cache holds the new descriptor (replaced when dirty, already
deep-equal otherwise); and a refresh over any non-empty changed list all of
whose files re-parse to descriptors deep-equal to their cached ones reports
not dirty — a deep-equal re-parse never marks the cycle dirty. -/
theorem claim_C3_structural_dirty (env : FsEnv) (s : PluginState) (f : String)
    (hex : env.fexists f = true) (hne : env.parse f ≠ []) :
    ((refreshModules env s (some [f]) none).2 = true ↔
        cacheGet s.moduleCache f ≠ some (computeModule env f))
    ∧ cacheGet (refreshModules env s (some [f]) none).1.moduleCache f =
        some (computeModule env f)
    ∧ (∀ cs : List String, cs ≠ [] →
        (∀ g ∈ cs, env.fexists g = true ∧ env.parse g ≠ [] ∧
          cacheGet s.moduleCache g = some (computeModule env g)) →
        (refreshModules env s (some cs) none).2 = false) := by
  refine ⟨?_, ?_, ?_⟩
  · rw [refreshModules_single]
    unfold refreshStep
    by_cases hc : cacheGet s.moduleCache f = some (computeModule env f)
    · simp [hex, hne, hc]
    · simp [hex, hne, hc]
  · have h1 : (refreshModules env s (some [f]) none).1.moduleCache =
        (refreshStep env (s.moduleCache, false) f).1 := by
      rw [refreshModules_single]
    rw [h1, refreshStep_get_self]
    simp [hex, hne]
  · intro cs hcs hall
    rw [refreshModules_changed env s cs hcs]
    have hfix : cs.foldl (refreshStep env) (s.moduleCache, false) = (s.moduleCache, false) := by
      apply foldl_refreshStep_fixed
      intro g hg _
      rcases hall g hg with ⟨_, hgp, hgc⟩
      simp [hgp, hgc]
    simp [hfix]

/-- Claim C3, witness: the single-file dirty criterion at the concrete
environment `envA` and the empty initial cache. -/
theorem claim_C3_structural_dirty_witness :
    envA.fexists "a" = true ∧ envA.parse "a" ≠ [] ∧
      ((refreshModules envA initialState (some ["a"]) none).2 = true ↔
        cacheGet initialState.moduleCache "a" ≠ some (computeModule envA "a")) :=
  ⟨by decide, by decide,
    (claim_C3_structural_dirty envA initialState "a" (by decide) (by decide)).1⟩

/-! ## Claim C8 -/

/-- Claim C8: a matched file whose re-parse yields zero qualifying exports
is never cached — the at-least-one-export cache invariant is preserved by
every refresh; evicting a previously cached descriptor of a still-existing
file marks the cycle dirty, and a zero-export parse of a never-cached file
alone does not. -/
theorem claim_C8_zero_export_eviction (env : FsEnv) (s : PluginState) (f : String)
    (hex : env.fexists f = true) (hemp : env.parse f = []) :
    ((cacheGet s.moduleCache f).isSome = true →
        (refreshModules env s (some [f]) none).2 = true ∧
          cacheGet (refreshModules env s (some [f]) none).1.moduleCache f = none)
    ∧ (cacheGet s.moduleCache f = none →
        (refreshModules env s (some [f]) none).2 = false)
    ∧ (∀ changed? removed? : Option (List String),
        (∀ p ∈ s.moduleCache, p.2.exports ≠ []) →
        ∀ p ∈ (refreshModules env s changed? removed?).1.moduleCache, p.2.exports ≠ []) := by
  refine ⟨?_, ?_, ?_⟩
  · intro hsome
    constructor
    · rw [refreshModules_single]
      unfold refreshStep
      simp [hex, hemp, cacheDeleteHad_eq_true hsome]
    · have h1 : (refreshModules env s (some [f]) none).1.moduleCache =
          (refreshStep env (s.moduleCache, false) f).1 := by
        rw [refreshModules_single]
      rw [h1, refreshStep_get_self]
      simp [hex, hemp]
  · intro hnone
    rw [refreshModules_single]
    unfold refreshStep
    simp [hex, hemp, cacheDeleteHad_eq_false hnone]
  · intro changed? removed? hinv p hp
    rw [refreshModules_fst_cache] at hp
    refine foldl_refreshStep_exports_invariant env _ _ ?_ p hp
    intro q hq
    exact hinv q (mem_foldl_cacheDelete _ _ q hq)

/-- Claim C8, witness: the eviction case at the concrete environment `envB`
(file `b` exists, re-parses to zero exports) and the state `stateB` whose
cache still holds a descriptor for `b`. -/
theorem claim_C8_zero_export_eviction_witness :
    envB.fexists "b" = true ∧ envB.parse "b" = [] ∧
      (cacheGet stateB.moduleCache "b").isSome = true ∧
      ((refreshModules envB stateB (some ["b"]) none).2 = true ∧
        cacheGet (refreshModules envB stateB (some ["b"]) none).1.moduleCache "b" = none) :=
  ⟨by decide, by decide, by decide,
    (claim_C8_zero_export_eviction envB stateB "b" (by decide) (by decide)).1 (by decide)⟩

/-! ## `regenerate` lemmas -/

theorem regenerate_effects_nil_iff (env : FsEnv) (cfg : Config) (kind : RegenKind)
    (delta? : Option Delta) (s : PluginState) :
    (regenerate env cfg kind delta? s).2.1 = [] ↔
      ((refreshModules env (discoverIfNeeded env s) (delta?.bind Delta.changed)
          (delta?.bind Delta.removed)).2 = false ∧
        deltaForce delta? = false ∧ s.generatedOnce = true) := by
  simp only [regenerate]
  cases hg : s.generatedOnce <;> cases hf : deltaForce delta? <;>
    cases hrd : (refreshModules env (discoverIfNeeded env s) (delta?.bind Delta.changed)
      (delta?.bind Delta.removed)).2 <;>
    simp only [hg, hf, hrd, Bool.or_false, Bool.or_true, Bool.false_or, Bool.true_or,
      Bool.not_false, Bool.not_true, Bool.and_false, Bool.and_true, Bool.false_eq_true,
      if_false, if_true]
  all_goals try simp
  all_goals
    rcases hb1 : (buildContainerServer env cfg.dockerOpts ".create-nodejs-fn").2 with _ | e
  all_goals try (cases kind)
  all_goals
    rcases hb2 : (buildContainerServer env cfg.dockerOpts "dist/.create-nodejs-fn").2 with _ | e2
  all_goals simp

/-- Re-running the refresh loop on an unchanged universe from the cache the
previous run produced reports nothing dirty. -/
theorem refresh_idempotent (env : FsEnv) (cf : List String) :
    (cf.foldl (refreshStep env)
      ((cf.foldl (refreshStep env) (([] : ModuleCache), false)).1, false)).2 = false := by
  rw [foldl_refreshStep_fixed env cf _ false
    (fun f hf => fixedAt_foldl_mem env cf (([] : ModuleCache), false) f hf (fun _ => rfl))]

theorem regenerate_first_serve_state (env : FsEnv) (cfg : Config)
    (hb1 : (buildContainerServer env cfg.dockerOpts ".create-nodejs-fn").2 = none) :
    (regenerate env cfg RegenKind.serve none initialState).1 =
      { (refreshModules env (discoverIfNeeded env initialState) none none).1 with
          generatedOnce := true } := by
  simp only [regenerate]
  simp only [initialState, Option.bind, deltaForce, Bool.or_false, Bool.not_false,
    Bool.or_true, Bool.and_false, Bool.false_eq_true, if_false]
  rw [hb1]

theorem regenerate_first_serve_err (env : FsEnv) (cfg : Config) (e : String)
    (hb1 : (buildContainerServer env cfg.dockerOpts ".create-nodejs-fn").2 = some e) :
    (regenerate env cfg RegenKind.serve none initialState).2.2 = some e := by
  simp only [regenerate]
  simp only [initialState, Option.bind, deltaForce, Bool.or_false, Bool.not_false,
    Bool.or_true, Bool.and_false, Bool.false_eq_true, if_false]
  rw [hb1]

/-! ## Claim C2 -/

/-- Claim C2: a regeneration cycle performs no generation and no writes iff
the refresh step reports nothing dirty, the delta's force flag is unset, and
a prior full cycle already completed; the very first cycle (before
`generatedOnce`) is never skipped; and a second cycle run with an empty
delta after a successful first cycle on the unchanged module set performs no
generation and zero writes. -/
theorem claim_C2_skip_condition (env : FsEnv) (cfg : Config) (kind : RegenKind)
    (delta? : Option Delta) (s : PluginState) :
    ((regenerate env cfg kind delta? s).2.1 = [] ↔
      ((refreshModules env (discoverIfNeeded env s) (delta?.bind Delta.changed)
          (delta?.bind Delta.removed)).2 = false ∧
        deltaForce delta? = false ∧ s.generatedOnce = true))
    ∧ (s.generatedOnce = false → (regenerate env cfg kind delta? s).2.1 ≠ [])
    ∧ ((regenerate env cfg RegenKind.serve none initialState).2.2 = none →
        (regenerate env cfg RegenKind.serve none
          (regenerate env cfg RegenKind.serve none initialState).1).2.1 = []) := by
  refine ⟨regenerate_effects_nil_iff env cfg kind delta? s, ?_, ?_⟩
  · intro hg hnil
    have := (regenerate_effects_nil_iff env cfg kind delta? s).mp hnil
    rw [hg] at this
    exact absurd this.2.2 (by simp)
  · intro hok
    rcases hb1 : (buildContainerServer env cfg.dockerOpts ".create-nodejs-fn").2 with _ | e
    · rw [regenerate_first_serve_state env cfg hb1]
      apply (regenerate_effects_nil_iff env cfg RegenKind.serve none _).mpr
      refine ⟨?_, rfl, rfl⟩
      exact refresh_idempotent env ((discoverIfNeeded env initialState).containerFiles)
    · rw [regenerate_first_serve_err env cfg e hb1] at hok
      cases hok

/-- Claim C2, witness: with the concrete environment `envA` and generated
Docker options, the successful first serve cycle makes the second empty-delta
cycle a no-op with zero effects. -/
theorem claim_C2_skip_condition_witness :
    (regenerate envA cfgGen RegenKind.serve none initialState).2.2 = none ∧
      (regenerate envA cfgGen RegenKind.serve none
        (regenerate envA cfgGen RegenKind.serve none initialState).1).2.1 = [] :=
  ⟨by decide,
    (claim_C2_skip_condition envA cfgGen RegenKind.serve none initialState).2.2 (by decide)⟩

/-! ## Claim C9 -/

theorem refreshModules_generatedOnce (env : FsEnv) (s : PluginState)
    (changed? removed? : Option (List String)) :
    (refreshModules env s changed? removed?).1.generatedOnce = s.generatedOnce := rfl

theorem discoverIfNeeded_generatedOnce (env : FsEnv) (s : PluginState) :
    (discoverIfNeeded env s).generatedOnce = s.generatedOnce := by
  unfold discoverIfNeeded
  split <;> rfl

/-- Claim C9, counterexample: as stated, the claim is false — with a declared
but missing custom Dockerfile, `buildContainerServer` does throw a hard
user-visible error, but the startup cycle run through `enqueueRegeneration`
catches it in the per-cycle `.catch` handler: the error is logged and
swallowed (`propagated = none`), exactly like any transient per-cycle
failure, and startup is not aborted. -/
theorem claim_C9_missing_dockerfile_counterexample :
    (buildContainerServer envC9 cfgC9.dockerOpts ".create-nodejs-fn").2 =
        some (dockerErrMsg "Dockerfile.custom")
    ∧ (enqueueRegenerationRun envC9 cfgC9 RegenKind.serve none initialState).propagated = none
    ∧ (enqueueRegenerationRun envC9 cfgC9 RegenKind.serve none initialState).logged =
        some (dockerErrMsg "Dockerfile.custom") :=
  ⟨by decide, rfl, by decide⟩

/-- Claim C9, amended: when the configuration declares a custom Dockerfile
path and no file exists there, packaging raises a hard, user-visible error
naming the missing path; the regeneration queue's per-cycle handler catches
and logs that error — startup proceeds rather than aborting — and the cycle
does not complete (`generatedOnce` stays false, so the next cycle retries in
full). -/
theorem claim_C9_missing_dockerfile_amended (env : FsEnv) (cfg : Config) (p : String)
    (kind : RegenKind) (s : PluginState) (outBase : String)
    (hdocker : cfg.dockerOpts = some (DockerOptions.custom p))
    (hmissing : env.fexists (env.resolve p) = false) :
    (buildContainerServer env cfg.dockerOpts outBase).2 = some (dockerErrMsg p)
    ∧ (enqueueRegenerationRun env cfg kind none s).propagated = none
    ∧ (s.generatedOnce = false →
        (enqueueRegenerationRun env cfg kind none s).logged = some (dockerErrMsg p)
        ∧ (enqueueRegenerationRun env cfg kind none s).state.generatedOnce = false) := by
  have hb : ∀ out : String,
      (buildContainerServer env cfg.dockerOpts out).2 = some (dockerErrMsg p) := by
    intro out
    unfold buildContainerServer
    rw [hdocker]
    simp [hmissing]
  refine ⟨hb outBase, rfl, ?_⟩
  intro hg
  have hrun : regenerate env cfg kind none s =
      ((refreshModules env (discoverIfNeeded env s) none none).1,
        [Effect.genRuntime, Effect.genStubBatch, Effect.genWorkerFiles, Effect.genProxyFiles] ++
          (buildContainerServer env cfg.dockerOpts ".create-nodejs-fn").1,
        some (dockerErrMsg p)) := by
    simp only [regenerate]
    rw [hg]
    simp only [Bool.not_false, Bool.or_true, Bool.and_false, Bool.not_true,
      Bool.false_eq_true, if_false]
    rw [hb ".create-nodejs-fn"]
    rfl
  constructor
  · show (regenerate env cfg kind none s).2.2 = some (dockerErrMsg p)
    rw [hrun]
  · show (regenerate env cfg kind none s).1.generatedOnce = false
    rw [hrun, refreshModules_generatedOnce, discoverIfNeeded_generatedOnce, hg]

/-- Claim C9, witness: the amended theorem at the concrete misconfiguration
`cfgC9` (custom Dockerfile `Dockerfile.custom`, missing in `envC9`). -/
theorem claim_C9_missing_dockerfile_witness :
    cfgC9.dockerOpts = some (DockerOptions.custom "Dockerfile.custom") ∧
      envC9.fexists (envC9.resolve "Dockerfile.custom") = false ∧
      initialState.generatedOnce = false ∧
      (enqueueRegenerationRun envC9 cfgC9 RegenKind.serve none initialState).logged =
        some (dockerErrMsg "Dockerfile.custom") :=
  ⟨rfl, by decide, rfl,
    ((claim_C9_missing_dockerfile_amended envC9 cfgC9 "Dockerfile.custom" RegenKind.serve
      initialState ".create-nodejs-fn" rfl (by decide)).2.2 rfl).1⟩

/-! ## Claim C4 -/

/-- Claim C4: every generated proxy wrapper, on invocation with arbitrary
arguments, builds the call context from those arguments, evaluates the
export's routing-key expression (the literal key `"default"` when the module
declared none), resolves the key through `__resolveContainerKey`, dispatches
to the dispatch-surface method for that module and export on the
key-addressed backend, and always returns a promise. -/
theorem claim_C4_proxy_wrapper {α β : Type} (M : DispatchModel α β) (nsp exName : String)
    (keyExpr : Option (ContainerKeyV α)) (args : List α) :
    (proxyWrapper M nsp exName keyExpr args).isPromise = true
    ∧ proxyWrapper M nsp exName keyExpr args =
        JsVal.promise (M.impl (M.backendOf (evalKeyExpr keyExpr ⟨args⟩)) nsp exName args)
    ∧ (resolveContainerKey nsp exName (⟨args⟩ : CallCtx α)
        (keyExpr.getD (ContainerKeyV.lit "default"))).val = evalKeyExpr keyExpr ⟨args⟩
    ∧ (keyExpr = none → evalKeyExpr keyExpr (⟨args⟩ : CallCtx α) = "default") := by
  refine ⟨rfl, ?_, ?_, ?_⟩
  · cases keyExpr with
    | none => rfl
    | some k => cases k <;> rfl
  · cases keyExpr with
    | none => rfl
    | some k => cases k <;> rfl
  · intro h
    subst h
    rfl

/-- Claim C4, witness: the wrapper at the concrete dispatch model `M0` with
no declared routing-key expression falls back to the key `"default"` and
returns a promise. -/
theorem claim_C4_proxy_wrapper_witness :
    evalKeyExpr (none : Option (ContainerKeyV Nat)) (⟨[1, 2]⟩ : CallCtx Nat) = "default"
    ∧ (proxyWrapper M0 "m" "f" (none : Option (ContainerKeyV Nat)) [1, 2]).isPromise = true :=
  ⟨(claim_C4_proxy_wrapper M0 "m" "f" none [1, 2]).2.2.2 rfl,
    (claim_C4_proxy_wrapper M0 "m" "f" none [1, 2]).1⟩

/-! ## Claim C6 -/

theorem mem_setAdd (l : List String) (x a : String) :
    x ∈ setAdd l a ↔ x ∈ l ∨ x = a := by
  unfold setAdd
  by_cases h : a ∈ l
  · simp only [h, if_true]
    constructor
    · exact Or.inl
    · rintro (hx | rfl)
      · exact hx
      · exact h
  · simp [h]

theorem mem_foldl_setAdd :
    ∀ (L : List String) (acc : List String) (x : String),
      x ∈ L.foldl setAdd acc ↔ x ∈ acc ∨ x ∈ L := by
  intro L
  induction L with
  | nil => intro acc x; simp
  | cons a L ih =>
      intro acc x
      simp only [List.foldl_cons, ih, mem_setAdd, List.mem_cons]
      tauto

theorem scheduleBurst_changed_mem (st₀ : PendingDelta) (burst : List (String × Delta))
    (p : String) :
    p ∈ (scheduleBurst st₀ burst).pendingChanged ↔
      p ∈ st₀.pendingChanged ∨ ∃ rd ∈ burst, p ∈ rd.2.changed.getD [] := by
  induction burst generalizing st₀ with
  | nil => simp [scheduleBurst]
  | cons b bs ih =>
      show p ∈ (scheduleBurst (scheduleServeRegeneration st₀ b.1 b.2) bs).pendingChanged ↔ _
      rw [ih]
      simp only [scheduleServeRegeneration, mem_foldl_setAdd, List.mem_cons]
      constructor
      · rintro ((h | h) | ⟨rd, hrd, hm⟩)
        · exact Or.inl h
        · exact Or.inr ⟨b, Or.inl rfl, h⟩
        · exact Or.inr ⟨rd, Or.inr hrd, hm⟩
      · rintro (h | ⟨rd, (rfl | hrd), hm⟩)
        · exact Or.inl (Or.inl h)
        · exact Or.inl (Or.inr hm)
        · exact Or.inr ⟨rd, hrd, hm⟩

theorem scheduleBurst_removed_mem (st₀ : PendingDelta) (burst : List (String × Delta))
    (p : String) :
    p ∈ (scheduleBurst st₀ burst).pendingRemoved ↔
      p ∈ st₀.pendingRemoved ∨ ∃ rd ∈ burst, p ∈ rd.2.removed.getD [] := by
  induction burst generalizing st₀ with
  | nil => simp [scheduleBurst]
  | cons b bs ih =>
      show p ∈ (scheduleBurst (scheduleServeRegeneration st₀ b.1 b.2) bs).pendingRemoved ↔ _
      rw [ih]
      simp only [scheduleServeRegeneration, mem_foldl_setAdd, List.mem_cons]
      constructor
      · rintro ((h | h) | ⟨rd, hrd, hm⟩)
        · exact Or.inl h
        · exact Or.inr ⟨b, Or.inl rfl, h⟩
        · exact Or.inr ⟨rd, Or.inr hrd, hm⟩
      · rintro (h | ⟨rd, (rfl | hrd), hm⟩)
        · exact Or.inl (Or.inl h)
        · exact Or.inl (Or.inr hm)
        · exact Or.inr ⟨rd, hrd, hm⟩

theorem scheduleBurst_force (st₀ : PendingDelta) (burst : List (String × Delta)) :
    (scheduleBurst st₀ burst).pendingForce =
      (st₀.pendingForce || burst.any (fun rd => rd.2.force)) := by
  induction burst generalizing st₀ with
  | nil => simp [scheduleBurst]
  | cons b bs ih =>
      show (scheduleBurst (scheduleServeRegeneration st₀ b.1 b.2) bs).pendingForce = _
      rw [ih]
      simp [scheduleServeRegeneration, Bool.or_assoc]

theorem mem_snapshotList (l : List String) (x : String) :
    x ∈ (snapshotList l).getD [] ↔ x ∈ l := by
  unfold snapshotList
  by_cases h : l.isEmpty = true
  · rw [List.isEmpty_iff] at h
    simp [h]
  · simp [h]

/-- Claim C6: for any burst of qualifying events merged within one debounce
window, the timer fire enqueues exactly one `serve` regeneration request;
its changed set is the union of the burst's changed paths (plus whatever was
already pending), likewise the removed set; its force flag is the OR of the
burst's force flags (monotonic over the accumulated pending force); and the
pending delta is cleared at the snapshot. -/
theorem claim_C6_debounce_coalescing (st₀ : PendingDelta) (burst : List (String × Delta))
    (queued : List (RegenKind × Delta)) :
    ((fireServeTimer (scheduleBurst st₀ burst) queued).2 =
        queued ++ [(RegenKind.serve, serveSnapshot (scheduleBurst st₀ burst))])
    ∧ ((fireServeTimer (scheduleBurst st₀ burst) queued).2.length = queued.length + 1)
    ∧ (∀ p, p ∈ (serveSnapshot (scheduleBurst st₀ burst)).changed.getD [] ↔
        p ∈ st₀.pendingChanged ∨ ∃ rd ∈ burst, p ∈ rd.2.changed.getD [])
    ∧ (∀ p, p ∈ (serveSnapshot (scheduleBurst st₀ burst)).removed.getD [] ↔
        p ∈ st₀.pendingRemoved ∨ ∃ rd ∈ burst, p ∈ rd.2.removed.getD [])
    ∧ ((serveSnapshot (scheduleBurst st₀ burst)).force =
        (st₀.pendingForce || burst.any (fun rd => rd.2.force)))
    ∧ (fireServeTimer (scheduleBurst st₀ burst) queued).1 = emptyPending := by
  refine ⟨rfl, by simp [fireServeTimer], ?_, ?_, ?_, rfl⟩
  · intro p
    rw [show (serveSnapshot (scheduleBurst st₀ burst)).changed =
        snapshotList (scheduleBurst st₀ burst).pendingChanged from rfl]
    rw [mem_snapshotList]
    exact scheduleBurst_changed_mem st₀ burst p
  · intro p
    rw [show (serveSnapshot (scheduleBurst st₀ burst)).removed =
        snapshotList (scheduleBurst st₀ burst).pendingRemoved from rfl]
    rw [mem_snapshotList]
    exact scheduleBurst_removed_mem st₀ burst p
  · exact scheduleBurst_force st₀ burst

/-! ## Claim C7 -/

/-- Claim C7: the restart-timer handler runs only after the regeneration
queue settles (its events strictly follow the queue trace); it never throws
out of the timer callback; when no restart is in flight it sets the
in-flight flag, invokes the restart, logs a restart failure instead of
rethrowing, and releases the flag on every exit path; when a restart is
already in flight it does nothing. -/
theorem claim_C7_restart_guard (qt : List REvent) (restarting : Bool)
    (res : Except String Unit) :
    ((restartTimerFire qt restarting res).2 = none)
    ∧ ((restartTimerFire qt restarting res).1 =
        qt ++ (restartTimerFire [] restarting res).1)
    ∧ ((restartTimerFire qt true res).1 = qt)
    ∧ (res = Except.ok () →
        (restartTimerFire qt false res).1 =
          qt ++ [REvent.flagSet true, REvent.infoLogged, REvent.restartCalled,
            REvent.flagSet false])
    ∧ (∀ e, res = Except.error e →
        (restartTimerFire qt false res).1 =
          qt ++ [REvent.flagSet true, REvent.infoLogged, REvent.restartCalled,
            REvent.restartFailedLogged e, REvent.flagSet false])
    ∧ (flagAfter false (restartHandler false res).1 = false)
    ∧ (REvent.restartCalled ∈ (restartHandler false res).1)
    ∧ ((restartHandler true res).1 = []) := by
  refine ⟨?_, ?_, ?_, ?_, ?_, ?_, ?_, ?_⟩
  · cases restarting <;> cases res <;> rfl
  · cases restarting <;> cases res <;> rfl
  · cases res <;> simp [restartTimerFire, restartHandler]
  · intro h
    subst h
    rfl
  · intro e he
    subst he
    rfl
  · cases res <;> rfl
  · cases res <;> simp [restartHandler, tryCatchFinally, restartBody]
  · cases res <;> rfl

/-- Claim C7, witness: the handler at the concrete failing restart
`Except.error "boom"` logs the failure, keeps nothing in flight, and throws
nothing. -/
theorem claim_C7_restart_guard_witness :
    (Except.error "boom" : Except String Unit) = Except.error "boom"
    ∧ (restartTimerFire [] false (Except.error "boom")).1 =
        [REvent.flagSet true, REvent.infoLogged, REvent.restartCalled,
          REvent.restartFailedLogged "boom", REvent.flagSet false]
    ∧ (restartTimerFire [] false (Except.error "boom")).2 = none :=
  ⟨rfl,
    (claim_C7_restart_guard [] false (Except.error "boom")).2.2.2.2.1 "boom" rfl,
    (claim_C7_restart_guard [] false (Except.error "boom")).1⟩

/-! ## Claim C1 -/

theorem runActs_cons (a : QAction) (acts : List QAction) (st : QueueState × List QEvent) :
    runActs (a :: acts) st = runActs acts (doAct st a) := rfl

theorem drainPending_append (p : List Cycle) (c : Cycle) :
    drainPending (p ++ [c]) = drainPending p ++ cycleSegment c := by
  induction p with
  | nil => simp [drainPending]
  | cons d p ih => simp [drainPending, ih]

theorem drainState_append_pending (s : QueueState) (c : Cycle) :
    drainState { s with pending := s.pending ++ [c] } = drainState s ++ cycleSegment c := by
  simp [drainState, drainPending_append, List.append_assoc]

theorem tick1_drain (s : QueueState) :
    (tick1 s).2 ++ drainState (tick1 s).1 = drainState s := by
  rcases s with ⟨pending, current⟩
  cases current with
  | none =>
      cases pending with
      | nil => rfl
      | cons c rest => simp [tick1, drainState, drainPending, cycleSegment]
  | some ist =>
      rcases ist with ⟨i, steps⟩
      cases steps with
      | nil => simp [tick1, drainState, runBody]
      | cons b rest =>
          cases b
          · simp [tick1, drainState, runBody]
          · simp [tick1, drainState, runBody]

theorem tick1_drain_assoc (s : QueueState) (rest : List QEvent) :
    (tick1 s).2 ++ (drainState (tick1 s).1 ++ rest) = drainState s ++ rest := by
  rw [← List.append_assoc, tick1_drain]

theorem runActs_trace_invariant :
    ∀ (acts : List QAction) (st : QueueState × List QEvent),
      (runActs acts st).2 ++ drainState (runActs acts st).1 =
        st.2 ++ drainState st.1 ++ ((enqueuedOf acts).map cycleSegment).flatten := by
  intro acts
  induction acts with
  | nil => intro st; simp [runActs, enqueuedOf]
  | cons a acts ih =>
      intro st
      rw [runActs_cons, ih]
      cases a with
      | enq c =>
          show (doAct st (QAction.enq c)).2 ++
              drainState (doAct st (QAction.enq c)).1 ++ _ = _
          simp only [doAct, enqueueRegeneration]
          rw [drainState_append_pending]
          simp [enqueuedOf, List.append_assoc]
      | tick =>
          show (doAct st QAction.tick).2 ++ drainState (doAct st QAction.tick).1 ++ _ = _
          simp only [doAct]
          simp [enqueuedOf, List.append_assoc, tick1_drain_assoc]

theorem tickN_add (a b : Nat) : ∀ st, tickN (a + b) st = tickN b (tickN a st) := by
  induction a with
  | zero =>
      intro st
      rw [Nat.zero_add]
      rfl
  | succ a ih =>
      intro st
      have h : a + 1 + b = (a + b) + 1 := by omega
      rw [h]
      show tickN (a + b) (doAct st QAction.tick) = tickN b (tickN (a + 1) st)
      rw [ih]
      rfl

theorem tickN_body (i : Nat) :
    ∀ (steps : List Bool) (p : List Cycle) (tr : List QEvent),
      tickN (bodyTicks steps) ((⟨p, some (i, steps)⟩ : QueueState), tr) =
        ((⟨p, none⟩ : QueueState), tr ++ runBody i steps) := by
  intro steps
  induction steps with
  | nil => intro p tr; rfl
  | cons b rest ih =>
      intro p tr
      cases b
      · rfl
      · show tickN (bodyTicks rest)
            (doAct ((⟨p, some (i, true :: rest)⟩ : QueueState), tr) QAction.tick) = _
        have h1 : doAct ((⟨p, some (i, true :: rest)⟩ : QueueState), tr) QAction.tick =
            ((⟨p, some (i, rest)⟩ : QueueState), tr ++ [QEvent.step i]) := rfl
        rw [h1, ih]
        simp [runBody, List.append_assoc]

theorem tickN_pending :
    ∀ (cs : List Cycle) (tr : List QEvent),
      tickN (pendFuel cs) ((⟨cs, none⟩ : QueueState), tr) =
        (idleQueue, tr ++ drainPending cs) := by
  intro cs
  induction cs with
  | nil => intro tr; simp [pendFuel, tickN, drainPending, idleQueue]
  | cons c rest ih =>
      intro tr
      show tickN (1 + (bodyTicks c.steps + pendFuel rest)) _ = _
      rw [tickN_add]
      have h1 : tickN 1 ((⟨c :: rest, none⟩ : QueueState), tr) =
          ((⟨rest, some (c.id, c.steps)⟩ : QueueState), tr ++ [QEvent.start c.id]) := rfl
      rw [h1, tickN_add, tickN_body, ih]
      simp [drainPending, cycleSegment, List.append_assoc]

theorem tickN_drains (s : QueueState) (tr : List QEvent) :
    tickN (qFuel s) (s, tr) = (idleQueue, tr ++ drainState s) := by
  rcases s with ⟨pending, current⟩
  cases current with
  | none =>
      show tickN (pendFuel pending) _ = _
      rw [tickN_pending]
      simp [drainState]
  | some ist =>
      rcases ist with ⟨i, steps⟩
      show tickN (bodyTicks steps + pendFuel pending) _ = _
      rw [tickN_add, tickN_body, tickN_pending]
      simp [drainState, List.append_assoc]

/-- Claim C1: for every interleaving of `enqueueRegeneration` calls and
scheduler ticks, running the remaining queue to quiescence ends idle with a
total event trace that is exactly the concatenation of the enqueued cycles'
serialized segments, in enqueue order.  Consequently cycle bodies never
interleave (the machine holds at most one running body by construction, and
each segment is contiguous), a cycle enqueued first fully completes —
`done` or `errorLogged` — before the next one's `start`, and a body that
throws is logged (`errorLogged` ends its segment) while every later
enqueued cycle still contributes its full segment. -/
theorem claim_C1_queue_serialized (acts : List QAction) :
    tickN (qFuel (runActs acts (idleQueue, [])).1) (runActs acts (idleQueue, [])) =
      (idleQueue, ((enqueuedOf acts).map cycleSegment).flatten) := by
  have hinv := runActs_trace_invariant acts (idleQueue, [])
  have h0 : drainState idleQueue = [] := rfl
  rw [h0] at hinv
  simp only [List.append_nil, List.nil_append] at hinv
  have hd := tickN_drains (runActs acts (idleQueue, [])).1 (runActs acts (idleQueue, [])).2
  rw [hinv] at hd
  exact hd

/-! ## Claim C5 -/

/-- Claim C5, counterexample: as stated, the claim is false — the namespace
is computed from the relative path with its final extension stripped
(`src/index.ts` line 91, `rel.replace(/\.[^.]+$/, "")`), so the two distinct
relative paths `m.ts` and `m.tsx` produce the same namespace, whatever the
sanitizer does to the stripped path. -/
theorem claim_C5_namespace_injective_counterexample :
    namespaceOfRel "m.ts" = namespaceOfRel "m.tsx" ∧ ("m.ts" : String) ≠ "m.tsx" :=
  ⟨by decide, by decide⟩

/-- Claim C5, amended: the namespace of a module descriptor is a
deterministic sanitized identifier computed purely from the module's
relative path with its final extension stripped, and it is injective on
those stripped paths: two relative paths whose extension-stripped forms
differ never produce equal namespaces (paths differing only in the final
extension collide). -/
theorem claim_C5_namespace_injective_amended (env : FsEnv) (abs r₁ r₂ : String)
    (h : stripExt r₁ ≠ stripExt r₂) :
    namespaceOfRel r₁ ≠ namespaceOfRel r₂ ∧
      (computeModule env abs).nsp = namespaceOfRel (env.rel abs) :=
  ⟨fun he => h (sanitizeNamespace_inj he), rfl⟩

/-- Claim C5, witness: the amended theorem applied at the concrete relative
paths `a.ts` and `b.ts`. -/
theorem claim_C5_namespace_injective_witness :
    stripExt "a.ts" ≠ stripExt "b.ts" ∧ namespaceOfRel "a.ts" ≠ namespaceOfRel "b.ts" :=
  ⟨by decide,
    (claim_C5_namespace_injective_amended envA "a" "a.ts" "b.ts" (by decide)).1⟩

end CreateNodejsFn
